import Mathlib

/-!
Shallow embedding of the core of `magnetic-solitons-1d`:
`src/scripts/core/llg_engine.py` (effective field, ground-state relaxation,
LLG right-hand side) and the soliton tracking / velocity extraction logic of
`src/scripts/analysis/extract_velocity.py` and
`src/scripts/analysis/calculate_mobility.py`.

Numpy float arithmetic is modelled by exact real arithmetic (`ℝ`) for the
physics engine, and by exact rational arithmetic (`ℚ`) for the analysis
pipeline (which uses only field operations and order comparisons, so it is
fully executable there).  A spin configuration of `N` sites with periodic
boundary conditions is a function `ZMod N → Vec3`; `np.roll(S, -1)` is
`fun i => S (i + 1)` and `np.roll(S, 1)` is `fun i => S (i - 1)`.
-/

/-- A 3-vector of reals: one row of an `(N, 3)` numpy array. -/
structure Vec3 where
  x : ℝ
  y : ℝ
  z : ℝ

instance : Zero Vec3 := ⟨⟨0, 0, 0⟩⟩

instance : Add Vec3 := ⟨fun a b => ⟨a.x + b.x, a.y + b.y, a.z + b.z⟩⟩

instance : Sub Vec3 := ⟨fun a b => ⟨a.x - b.x, a.y - b.y, a.z - b.z⟩⟩

instance : Neg Vec3 := ⟨fun a => ⟨-a.x, -a.y, -a.z⟩⟩

instance : SMul ℝ Vec3 := ⟨fun c a => ⟨c * a.x, c * a.y, c * a.z⟩⟩

/-- `np.cross` restricted to a pair of 3-vectors. -/
def cross3 (a b : Vec3) : Vec3 :=
  ⟨a.y * b.z - a.z * b.y, a.z * b.x - a.x * b.z, a.x * b.y - a.y * b.x⟩

/-- Euclidean dot product of two 3-vectors. -/
def dot3 (a b : Vec3) : ℝ := a.x * b.x + a.y * b.y + a.z * b.z

/-- `np.linalg.norm` of one row: the Euclidean 2-norm. -/
noncomputable def norm3 (a : Vec3) : ℝ := Real.sqrt (a.x ^ 2 + a.y ^ 2 + a.z ^ 2)

/-- A spin configuration on the periodic chain of `N` sites:
an `(N, 3)` numpy array with site index taken modulo `N`. -/
def Config (N : ℕ) : Type := ZMod N → Vec3

instance (N : ℕ) : Zero (Config N) := ⟨fun _ => 0⟩

/-- `calculate_B_eff(S, J, D, Da, h_external)` from
`src/scripts/core/llg_engine.py`.  `s_next = np.roll(S, -1)` is
`fun i => S (i + 1)` and `s_prev = np.roll(S, 1)` is `fun i => S (i - 1)`;
the three physical terms and the external contribution are summed
elementwise.  The scalar `h_external = 0` case of the Python code is the
zero field `(0 : Config N)`. -/
def calculate_B_eff {N : ℕ} (S : Config N) (J D Da : ℝ) (h_external : Config N) :
    Config N :=
  let s_next : Config N := fun i => S (i + 1)
  let s_prev : Config N := fun i => S (i - 1)
  let b_heisenberg : Config N := fun i => J • (s_prev i + s_next i)
  let diff : Config N := fun i => s_next i - s_prev i
  let b_dmi : Config N := fun i => ⟨-D * (diff i).y, D * (diff i).x, 0⟩
  let b_anisotropy : Config N := fun i => ⟨0, 0, -2 * Da * (S i).z⟩
  fun i => b_heisenberg i + b_dmi i + b_anisotropy i + h_external i

/-- Cyclic relabeling of the chain sites by `k`: site `i` of the rotated
configuration is site `i + k` of the original one (the reduction modulo `N`
of any integer shift). -/
def rotateConfig {N : ℕ} (k : ZMod N) (S : Config N) : Config N :=
  fun i => S (i + k)

/-- The divisor used by the renormalization block of `llg_rhs`:
`norms = np.linalg.norm(S, axis=1, keepdims=True); norms[norms == 0] = 1`.
A row whose 2-norm is exactly zero gets divisor `1`. -/
noncomputable def normDenom (v : Vec3) : ℝ :=
  if norm3 v = 0 then 1 else norm3 v

/-- One row of `S /= norms` in `llg_rhs`: componentwise division of the row
by its (zero-guarded) 2-norm. -/
noncomputable def normalizeVec (v : Vec3) : Vec3 :=
  ⟨v.x / normDenom v, v.y / normDenom v, v.z / normDenom v⟩

/-- The whole renormalization block of `llg_rhs` applied to a configuration. -/
noncomputable def normalizeConfig {N : ℕ} (S : Config N) : Config N :=
  fun i => normalizeVec (S i)

/-- The external-field argument of `llg_rhs`: `h_external_func(t, N, **h_args)`
when a field function is supplied, and the scalar `0.0` (the zero field,
after numpy broadcasting) when `h_external_func` is `None`. -/
def hExtEval {N : ℕ} (h_external_func : Option (ℝ → Config N)) (t : ℝ) :
    Config N :=
  match h_external_func with
  | none => 0
  | some f => f t

/-- `llg_rhs(t, S_flat, N, J, D, Da, alpha, gamma, h_external_func, h_args)`
from `src/scripts/core/llg_engine.py`, at the level of the `(N, 3)` view of
the flattened `3N` state (`reshape`/`flatten` are the identity on the data).
The working state is renormalized per site (zero-norm guard), the external
field is sampled at `t`, `B_eff` is computed by `calculate_B_eff`, and the
returned derivative is `-gamma * np.cross(S, B_eff)` plus
`-alpha * np.cross(S, np.cross(S, B_eff))`. -/
noncomputable def llg_rhs {N : ℕ} (t : ℝ) (S_flat : Config N)
    (J D Da alpha gamma : ℝ) (h_external_func : Option (ℝ → Config N)) :
    Config N :=
  let S := normalizeConfig S_flat
  let h_ext := hExtEval h_external_func t
  let B_eff := calculate_B_eff S J D Da h_ext
  let precession_term : Config N := fun i => (-gamma) • cross3 (S i) (B_eff i)
  let damping_term : Config N :=
    fun i => (-alpha) • cross3 (S i) (cross3 (S i) (B_eff i))
  fun i => precession_term i + damping_term i

/-- Contents of the caller's flattened state buffer after `llg_rhs` returns.
`S = S_flat.reshape((N, 3))` is a view of the caller's contiguous array, and
`S /= norms` divides through that view in place, so after the call the
buffer holds the renormalized spins (independent of `t` and of the coupling
parameters). -/
noncomputable def llg_rhs_post {N : ℕ} (S_flat : Config N) : Config N :=
  normalizeConfig S_flat

/-- One row of the unguarded `S /= np.linalg.norm(S, axis=1, keepdims=True)`
used by `find_ground_state` (both at initialization and after every update);
unlike `llg_rhs` there is no zero-norm guard here. -/
noncomputable def divByNormVec (v : Vec3) : Vec3 :=
  ⟨v.x / norm3 v, v.y / norm3 v, v.z / norm3 v⟩

/-- The row normalization of `find_ground_state` on a whole configuration. -/
noncomputable def divByNormConfig {N : ℕ} (S : Config N) : Config N :=
  fun i => divByNormVec (S i)

/-- One iteration body of the relaxation loop of `find_ground_state`:
`S += dt_relax * B_eff` (with zero external field) followed by row
normalization. -/
noncomputable def relaxStep {N : ℕ} (J D Da dt_relax : ℝ) (S : Config N) :
    Config N :=
  divByNormConfig (fun i => S i + dt_relax • calculate_B_eff S J D Da 0 i)

/-- Maximum absolute value of the components of a row. -/
noncomputable def vmaxAbs (v : Vec3) : ℝ := |v.x| ⊔ |v.y| ⊔ |v.z|

/-- `np.max(np.abs(S2 - S))`: the largest per-component change between two
configurations, over all sites and all three components. -/
noncomputable def maxChange {N : ℕ} [NeZero N] (S S2 : Config N) : ℝ :=
  haveI : Nonempty (ZMod N) := ⟨0⟩
  Finset.univ.sup' Finset.univ_nonempty (fun i => vmaxAbs (S2 i - S i))

open Classical in
/-- The relaxation loop of `find_ground_state`: `fuel` is the number of
remaining iterations of `for step in range(max_steps)` and `step` is the
current Python loop index.  After each update the code checks, only when
`step % 500 == 0`, whether `np.max(np.abs(S - S_old))` (the change over the
single update just performed) is below `tolerance`, returning early if so;
when the fuel runs out the current configuration is returned. -/
noncomputable def fgsLoop {N : ℕ} [NeZero N] (J D Da tolerance dt_relax : ℝ) :
    ℕ → ℕ → Config N → Config N
  | 0, _, S => S
  | fuel + 1, step, S =>
    let S2 := relaxStep J D Da dt_relax S
    if step % 500 = 0 ∧ maxChange S S2 < tolerance then S2
    else fgsLoop J D Da tolerance dt_relax fuel (step + 1) S2

/-- `find_ground_state(N, J, D, Da, max_steps, tolerance, dt_relax)` from
`src/scripts/core/llg_engine.py`.  The call to `np.random.rand(N, 3) - 0.5`
is an external random source, so the embedding takes the drawn matrix `R` as
an argument; the function then performs the code's initial row normalization
and runs the relaxation loop starting at step index `0`. -/
noncomputable def find_ground_state {N : ℕ} [NeZero N] (R : Config N)
    (J D Da : ℝ) (max_steps : ℕ) (tolerance dt_relax : ℝ) : Config N :=
  fgsLoop J D Da tolerance dt_relax max_steps 0 (divByNormConfig R)

open Classical in
/-- Claim model of the convergence check, following claim C3's words for
comparison with the code: at every checkpoint step the solver compares the
current configuration with the configuration recorded at the last checkpoint
(`ref`, initially the starting configuration), i.e. the maximum
per-component change accumulated since the last checkpoint, terminating
early when it is below `tolerance`. -/
noncomputable def fgsClaimLoop {N : ℕ} [NeZero N]
    (J D Da tolerance dt_relax : ℝ) : ℕ → ℕ → Config N → Config N → Config N
  | 0, _, _, S => S
  | fuel + 1, step, ref, S =>
    let S2 := relaxStep J D Da dt_relax S
    if step % 500 = 0 then
      if maxChange ref S2 < tolerance then S2
      else fgsClaimLoop J D Da tolerance dt_relax fuel (step + 1) S2 S2
    else fgsClaimLoop J D Da tolerance dt_relax fuel (step + 1) ref S2

/-- `find_ground_state` as claim C3 describes it (checkpointed accumulated
change), for refutation by comparison with the code's behavior. -/
noncomputable def find_ground_state_claim {N : ℕ} [NeZero N] (R : Config N)
    (J D Da : ℝ) (max_steps : ℕ) (tolerance dt_relax : ℝ) : Config N :=
  fgsClaimLoop J D Da tolerance dt_relax max_steps 0 (divByNormConfig R)
    (divByNormConfig R)

/-- The all-up one-site configuration `(0, 0, 1)`. -/
noncomputable def ezC : Config 1 := fun _ => ⟨0, 0, 1⟩

/-- The all-down one-site configuration `(0, 0, -1)`. -/
noncomputable def nezC : Config 1 := fun _ => ⟨0, 0, -1⟩

/-- `T_START_FIT = 30.0` from the analysis scripts. -/
def T_START_FIT : ℚ := 30

/-- `T_END_FIT = 150.0` from the analysis scripts. -/
def T_END_FIT : ℚ := 150

/-- `np.where(sz_history[t_idx] < 0.0)[0]`: the increasing list of site
indices whose z-component is strictly below zero ("core" sites). -/
def coreIndices (sz : List ℚ) : List ℕ :=
  (List.range sz.length).filter (fun i => decide (sz.getD i 0 < 0))

/-- `np.mean(core_indices)`. -/
def meanIndices (l : List ℕ) : ℚ :=
  (l.map (fun i => (i : ℚ))).sum / l.length

/-- The soliton tracking loop shared by `extract_velocity.py` and
`calculate_velocity` of `calculate_mobility.py`: for every sample time, when
the core-site list is non-empty, append `(t, mean(core_indices))`; empty
times are skipped.  A trajectory sample is a pair of its time and of the
per-site z-components at that time. -/
def trackCore (traj : List (ℚ × List ℚ)) : List (ℚ × ℚ) :=
  traj.filterMap (fun p =>
    if coreIndices p.2 = [] then none
    else some (p.1, meanIndices (coreIndices p.2)))

/-- `mask = (times_with_soliton > T_START_FIT) & (times_with_soliton <
T_END_FIT)` applied to the tracked `(time, position)` samples: both
comparisons are strict. -/
def fitWindowFilter (samples : List (ℚ × ℚ)) : List (ℚ × ℚ) :=
  samples.filter (fun p => decide (T_START_FIT < p.1 ∧ p.1 < T_END_FIT))

/-- `curve_fit(linear_func, t_fit, pos_fit)` on the linear model
`a * x + b` converges to the least-squares line; the slope is
`(n Σxy − Σx Σy) / (n Σx² − (Σx)²)`.  The fit failure reported by
`curve_fit` (RuntimeError, mapped to `np.nan`) is modelled by the
degenerate normal equations `n Σx² − (Σx)² = 0`. -/
def leastSquaresSlope (pts : List (ℚ × ℚ)) : Option ℚ :=
  let n : ℚ := pts.length
  let sx := (pts.map Prod.fst).sum
  let sy := (pts.map Prod.snd).sum
  let sxx := (pts.map (fun p => p.1 * p.1)).sum
  let sxy := (pts.map (fun p => p.1 * p.2)).sum
  if n * sxx - sx * sx = 0 then none
  else some ((n * sxy - sx * sy) / (n * sxx - sx * sx))

/-- `calculate_velocity` from `src/scripts/analysis/calculate_mobility.py`
(the inline loop of `extract_velocity.py` is line-for-line the same), given
the sample times and per-site z-components of the loaded trajectory.  Every
`np.nan` ("no soliton", "not enough points in the fit range", "fit failed")
is the missing value `none`; the function is total and never raises. -/
def calculate_velocity (traj : List (ℚ × List ℚ)) : Option ℚ :=
  let tracked := trackCore traj
  if tracked = [] then none
  else
    let fitPts := fitWindowFilter tracked
    if fitPts.length < 2 then none
    else leastSquaresSlope fitPts

@[simp] theorem Vec3.zero_x : (0 : Vec3).x = 0 := rfl

@[simp] theorem Vec3.zero_y : (0 : Vec3).y = 0 := rfl

@[simp] theorem Vec3.zero_z : (0 : Vec3).z = 0 := rfl

@[simp] theorem Vec3.add_x (a b : Vec3) : (a + b).x = a.x + b.x := rfl

@[simp] theorem Vec3.add_y (a b : Vec3) : (a + b).y = a.y + b.y := rfl

@[simp] theorem Vec3.add_z (a b : Vec3) : (a + b).z = a.z + b.z := rfl

@[simp] theorem Vec3.sub_x (a b : Vec3) : (a - b).x = a.x - b.x := rfl

@[simp] theorem Vec3.sub_y (a b : Vec3) : (a - b).y = a.y - b.y := rfl

@[simp] theorem Vec3.sub_z (a b : Vec3) : (a - b).z = a.z - b.z := rfl

@[simp] theorem Vec3.neg_x (a : Vec3) : (-a).x = -a.x := rfl

@[simp] theorem Vec3.neg_y (a : Vec3) : (-a).y = -a.y := rfl

@[simp] theorem Vec3.neg_z (a : Vec3) : (-a).z = -a.z := rfl

@[simp] theorem Vec3.smul_x (c : ℝ) (a : Vec3) : (c • a).x = c * a.x := rfl

@[simp] theorem Vec3.smul_y (c : ℝ) (a : Vec3) : (c • a).y = c * a.y := rfl

@[simp] theorem Vec3.smul_z (c : ℝ) (a : Vec3) : (c • a).z = c * a.z := rfl

theorem Vec3.ext_iff' (a b : Vec3) : a = b ↔ a.x = b.x ∧ a.y = b.y ∧ a.z = b.z := by
  constructor
  · intro h; subst h; exact ⟨rfl, rfl, rfl⟩
  · rintro ⟨hx, hy, hz⟩; cases a; cases b; simp_all

/-- Claim C1: for every site `i`, `calculate_B_eff` returns exactly the sum of
the exchange field `J • (S (i-1) + S (i+1))`, the DMI field
`(-D*(S (i+1) - S (i-1)).y, D*(S (i+1) - S (i-1)).x, 0)`, the anisotropy
field `(0, 0, -2*Da*(S i).z)`, and the external field at `i`. -/
theorem calculate_B_eff_formula {N : ℕ} (S : Config N) (J D Da : ℝ)
    (H_ext : Config N) (i : ZMod N) :
    calculate_B_eff S J D Da H_ext i =
      J • (S (i - 1) + S (i + 1)) +
      Vec3.mk (-D * ((S (i + 1)).y - (S (i - 1)).y))
              (D * ((S (i + 1)).x - (S (i - 1)).x)) 0 +
      Vec3.mk 0 0 (-2 * Da * (S i).z) +
      H_ext i := by
  simp only [calculate_B_eff, Vec3.sub_x, Vec3.sub_y]

/-- Claim C7: `calculate_B_eff` is translation-invariant under cyclic
relabeling of site indices: evaluating it on the configuration and external
field both rotated by `k` gives the rotation by `k` of its value on the
original data. -/
theorem calculate_B_eff_rotate {N : ℕ} (S : Config N) (J D Da : ℝ)
    (H_ext : Config N) (k : ZMod N) :
    calculate_B_eff (rotateConfig k S) J D Da (rotateConfig k H_ext) =
      rotateConfig k (calculate_B_eff S J D Da H_ext) := by
  funext i
  show calculate_B_eff (rotateConfig k S) J D Da (rotateConfig k H_ext) i =
    calculate_B_eff S J D Da H_ext (i + k)
  simp only [calculate_B_eff, rotateConfig]
  have h1 : i + k + 1 = i + 1 + k := by ring
  have h2 : i + k - 1 = i - 1 + k := by ring
  rw [h1, h2]

/-- Claim C2: `llg_rhs` returns, per site, the dissipative precession law
`dS/dt = -γ (S × B_eff) - α (S × (S × B_eff))`, with `S` the per-site
renormalized state and `B_eff` given by `calculate_B_eff` on that state
together with the external field function evaluated at time `t`. -/
theorem llg_rhs_formula {N : ℕ} (t : ℝ) (S_flat : Config N)
    (J D Da alpha gamma : ℝ) (hfun : ℝ → Config N) (i : ZMod N) :
    llg_rhs t S_flat J D Da alpha gamma (some hfun) i =
      -(gamma • cross3 (normalizeConfig S_flat i)
          (calculate_B_eff (normalizeConfig S_flat) J D Da (hfun t) i)) -
      alpha • cross3 (normalizeConfig S_flat i)
          (cross3 (normalizeConfig S_flat i)
            (calculate_B_eff (normalizeConfig S_flat) J D Da (hfun t) i)) := by
  show ((-gamma) • cross3 _ _) + ((-alpha) • cross3 _ _) = _
  rw [Vec3.ext_iff']
  refine ⟨?_, ?_, ?_⟩ <;> simp [hExtEval] <;> ring

/-- Claim C9 (helper): the zero-guarded divisor is never zero, so the
division in the renormalization block is never a division by zero. -/
theorem normDenom_ne_zero (v : Vec3) : normDenom v ≠ 0 := by
  unfold normDenom
  split
  · exact one_ne_zero
  · assumption

/-- Claim C9: in the per-site renormalization of `llg_rhs`, a site of exactly
zero norm is left unchanged, every other site is rescaled to unit norm, and
the divisor used is never zero. -/
theorem normalizeConfig_spec {N : ℕ} (S : Config N) (i : ZMod N) :
    (norm3 (S i) = 0 → normalizeConfig S i = S i) ∧
    (norm3 (S i) ≠ 0 → norm3 (normalizeConfig S i) = 1) ∧
    normDenom (S i) ≠ 0 := by
  refine ⟨fun h0 => ?_, fun hne => ?_, normDenom_ne_zero _⟩
  · unfold normalizeConfig normalizeVec normDenom
    rw [if_pos h0]
    simp
  · have hsq : (0 : ℝ) ≤ (S i).x ^ 2 + (S i).y ^ 2 + (S i).z ^ 2 := by positivity
    unfold normalizeConfig normalizeVec
    rw [show normDenom (S i) = norm3 (S i) from if_neg hne]
    set c := norm3 (S i) with hc
    have hc2 : c ^ 2 = (S i).x ^ 2 + (S i).y ^ 2 + (S i).z ^ 2 := Real.sq_sqrt hsq
    show Real.sqrt
      (((S i).x / c) ^ 2 + ((S i).y / c) ^ 2 + ((S i).z / c) ^ 2) = 1
    have hone : ((S i).x / c) ^ 2 + ((S i).y / c) ^ 2 + ((S i).z / c) ^ 2 = 1 := by
      field_simp
      linarith [hc2]
    rw [hone, Real.sqrt_one]

/-- Claim C10: every site's derivative returned by `llg_rhs` is orthogonal to
that site's renormalized spin vector, so the squared per-site spin norm is a
first integral of the right-hand side. -/
theorem llg_rhs_orthogonal {N : ℕ} (t : ℝ) (S_flat : Config N)
    (J D Da alpha gamma : ℝ) (h_external_func : Option (ℝ → Config N))
    (i : ZMod N) :
    dot3 (llg_rhs t S_flat J D Da alpha gamma h_external_func i)
      (normalizeConfig S_flat i) = 0 := by
  show dot3 (((-gamma) • cross3 _ _) + ((-alpha) • cross3 _ _)) _ = 0
  unfold dot3 cross3
  simp only [Vec3.add_x, Vec3.add_y, Vec3.add_z, Vec3.smul_x, Vec3.smul_y,
    Vec3.smul_z]
  ring

/-- Claim C6 is violated by the code: `S = S_flat.reshape((N, 3))` is a view
of the caller's contiguous buffer and `S /= norms` writes through it, so a
call on a state with a non-unit-norm site changes the caller's array.  On
the one-site state `(0, 0, 2)` the buffer holds `(0, 0, 1)` after the call,
not its original contents. -/
theorem llg_rhs_post_mutates :
    llg_rhs_post (fun _ => ⟨0, 0, 2⟩ : Config 1) 0 = (⟨0, 0, 1⟩ : Vec3) ∧
    llg_rhs_post (fun _ => ⟨0, 0, 2⟩ : Config 1) ≠ (fun _ => ⟨0, 0, 2⟩) := by
  have hn : norm3 (⟨0, 0, 2⟩ : Vec3) = 2 := by
    show Real.sqrt ((0 : ℝ) ^ 2 + 0 ^ 2 + 2 ^ 2) = 2
    rw [show (0 : ℝ) ^ 2 + 0 ^ 2 + 2 ^ 2 = 2 ^ 2 by norm_num]
    exact Real.sqrt_sq (by norm_num)
  have hd : normDenom (⟨0, 0, 2⟩ : Vec3) = 2 := by
    unfold normDenom
    rw [hn]
    norm_num
  have hv : normalizeVec (⟨0, 0, 2⟩ : Vec3) = ⟨0, 0, 1⟩ := by
    unfold normalizeVec
    rw [hd, Vec3.ext_iff']
    norm_num
  refine ⟨hv, fun h => ?_⟩
  have h0 := congrArg Vec3.z (congrFun h 0)
  rw [show llg_rhs_post (fun _ => ⟨0, 0, 2⟩ : Config 1) 0 =
    normalizeVec ⟨0, 0, 2⟩ from rfl, hv] at h0
  norm_num at h0

@[simp] theorem Config.zero_apply {N : ℕ} (i : ZMod N) : (0 : Config N) i = 0 :=
  rfl

theorem norm3_001 : norm3 (⟨0, 0, 1⟩ : Vec3) = 1 := by
  show Real.sqrt ((0 : ℝ) ^ 2 + 0 ^ 2 + 1 ^ 2) = 1
  rw [show (0 : ℝ) ^ 2 + 0 ^ 2 + 1 ^ 2 = 1 by norm_num, Real.sqrt_one]

theorem norm3_00m1 : norm3 (⟨0, 0, -1⟩ : Vec3) = 1 := by
  show Real.sqrt ((0 : ℝ) ^ 2 + 0 ^ 2 + (-1) ^ 2) = 1
  rw [show (0 : ℝ) ^ 2 + 0 ^ 2 + (-1 : ℝ) ^ 2 = 1 by norm_num, Real.sqrt_one]

theorem norm3_003 : norm3 (⟨0, 0, 3⟩ : Vec3) = 3 := by
  show Real.sqrt ((0 : ℝ) ^ 2 + 0 ^ 2 + 3 ^ 2) = 3
  rw [show (0 : ℝ) ^ 2 + 0 ^ 2 + (3 : ℝ) ^ 2 = 3 ^ 2 by norm_num]
  exact Real.sqrt_sq (by norm_num)

theorem divByNormVec_00m1 : divByNormVec (⟨0, 0, -1⟩ : Vec3) = ⟨0, 0, -1⟩ := by
  unfold divByNormVec
  rw [norm3_00m1, Vec3.ext_iff']
  norm_num

theorem divByNormVec_001 : divByNormVec (⟨0, 0, 1⟩ : Vec3) = ⟨0, 0, 1⟩ := by
  unfold divByNormVec
  rw [norm3_001, Vec3.ext_iff']
  norm_num

theorem relax_ez : relaxStep (-1) 0 0 1 ezC = nezC := by
  funext i
  show divByNormVec (ezC i + (1 : ℝ) • calculate_B_eff ezC (-1) 0 0 0 i) = nezC i
  have hB : calculate_B_eff ezC (-1) 0 0 0 i = ⟨0, 0, -2⟩ := by
    simp only [calculate_B_eff, ezC]
    rw [Vec3.ext_iff']
    refine ⟨?_, ?_, ?_⟩ <;> simp <;> norm_num
  rw [hB]
  have hsum : ezC i + (1 : ℝ) • (⟨0, 0, -2⟩ : Vec3) = ⟨0, 0, -1⟩ := by
    rw [Vec3.ext_iff']
    refine ⟨?_, ?_, ?_⟩ <;> simp [ezC] <;> norm_num
  rw [hsum, divByNormVec_00m1]
  rfl

theorem relax_nez : relaxStep (-1) 0 0 1 nezC = ezC := by
  funext i
  show divByNormVec (nezC i + (1 : ℝ) • calculate_B_eff nezC (-1) 0 0 0 i) = ezC i
  have hB : calculate_B_eff nezC (-1) 0 0 0 i = ⟨0, 0, 2⟩ := by
    simp only [calculate_B_eff, nezC]
    rw [Vec3.ext_iff']
    refine ⟨?_, ?_, ?_⟩ <;> simp <;> norm_num
  rw [hB]
  have hsum : nezC i + (1 : ℝ) • (⟨0, 0, 2⟩ : Vec3) = ⟨0, 0, 1⟩ := by
    rw [Vec3.ext_iff']
    refine ⟨?_, ?_, ?_⟩ <;> simp [nezC] <;> norm_num
  rw [hsum, divByNormVec_001]
  rfl

theorem maxChange_const (v w : Vec3) :
    maxChange (N := 1) (fun _ => v) (fun _ => w) = vmaxAbs (w - v) := by
  unfold maxChange
  exact Finset.sup'_const _ _

theorem vmaxAbs_z (c : ℝ) : vmaxAbs ⟨0, 0, c⟩ = |c| := by
  unfold vmaxAbs
  show |(0 : ℝ)| ⊔ |(0 : ℝ)| ⊔ |c| = |c|
  rw [abs_zero, sup_idem]
  exact sup_eq_right.mpr (abs_nonneg c)

theorem maxChange_ez_nez : maxChange ezC nezC = 2 := by
  show maxChange (N := 1) (fun _ => ⟨0, 0, 1⟩) (fun _ => ⟨0, 0, -1⟩) = 2
  rw [maxChange_const]
  rw [show (⟨0, 0, -1⟩ : Vec3) - ⟨0, 0, 1⟩ = ⟨0, 0, -2⟩ from by
    rw [Vec3.ext_iff']; norm_num]
  rw [vmaxAbs_z]
  norm_num

theorem maxChange_nez_ez : maxChange nezC ezC = 2 := by
  show maxChange (N := 1) (fun _ => ⟨0, 0, -1⟩) (fun _ => ⟨0, 0, 1⟩) = 2
  rw [maxChange_const]
  rw [show (⟨0, 0, 1⟩ : Vec3) - ⟨0, 0, -1⟩ = ⟨0, 0, 2⟩ from by
    rw [Vec3.ext_iff']; norm_num]
  rw [vmaxAbs_z]
  norm_num

theorem maxChange_nez_nez : maxChange nezC nezC = 0 := by
  show maxChange (N := 1) (fun _ => ⟨0, 0, -1⟩) (fun _ => ⟨0, 0, -1⟩) = 0
  rw [maxChange_const]
  rw [show (⟨0, 0, -1⟩ : Vec3) - ⟨0, 0, -1⟩ = ⟨0, 0, 0⟩ from by
    rw [Vec3.ext_iff']; norm_num]
  rw [vmaxAbs_z, abs_zero]

theorem fgsLoop_osc : ∀ fuel step : ℕ,
    (fgsLoop (N := 1) (-1) 0 0 1 1 fuel step ezC =
      if Even fuel then ezC else nezC) ∧
    (fgsLoop (N := 1) (-1) 0 0 1 1 fuel step nezC =
      if Even fuel then nezC else ezC) := by
  intro fuel
  induction fuel with
  | zero => intro step; constructor <;> simp [fgsLoop]
  | succ n ih =>
    intro step
    constructor
    · simp only [fgsLoop]
      rw [relax_ez]
      rw [if_neg (show ¬(step % 500 = 0 ∧ maxChange ezC nezC < 1) from by
        rintro ⟨-, h⟩; rw [maxChange_ez_nez] at h; norm_num at h)]
      rw [(ih (step + 1)).2]
      by_cases he : Even n
      · simp [he, Nat.even_add_one]
      · simp [he, Nat.even_add_one]
    · simp only [fgsLoop]
      rw [relax_nez]
      rw [if_neg (show ¬(step % 500 = 0 ∧ maxChange nezC ezC < 1) from by
        rintro ⟨-, h⟩; rw [maxChange_nez_ez] at h; norm_num at h)]
      rw [(ih (step + 1)).1]
      by_cases he : Even n
      · simp [he, Nat.even_add_one]
      · simp [he, Nat.even_add_one]

theorem fgsClaimLoop_skip (fuel step : ℕ) (ref S : Config 1)
    (h : step % 500 ≠ 0) :
    fgsClaimLoop (N := 1) (-1) 0 0 1 1 (fuel + 1) step ref S =
      fgsClaimLoop (-1) 0 0 1 1 fuel (step + 1) ref (relaxStep (-1) 0 0 1 S) := by
  simp only [fgsClaimLoop]
  rw [if_neg h]

theorem fgsClaimLoop_run : ∀ m s : ℕ, ∀ ref : Config 1,
    (∀ j, j < m → (s + j) % 500 ≠ 0) → ∀ fuel : ℕ,
    (fgsClaimLoop (N := 1) (-1) 0 0 1 1 (m + fuel) s ref ezC =
      fgsClaimLoop (-1) 0 0 1 1 fuel (s + m) ref
        (if Even m then ezC else nezC)) ∧
    (fgsClaimLoop (N := 1) (-1) 0 0 1 1 (m + fuel) s ref nezC =
      fgsClaimLoop (-1) 0 0 1 1 fuel (s + m) ref
        (if Even m then nezC else ezC)) := by
  intro m
  induction m with
  | zero =>
    intro s ref _ fuel
    constructor <;> simp
  | succ n ih =>
    intro s ref h fuel
    have h0 : s % 500 ≠ 0 := by
      have := h 0 (Nat.succ_pos n)
      simpa using this
    have hrest : ∀ j, j < n → (s + 1 + j) % 500 ≠ 0 := by
      intro j hj
      have := h (j + 1) (by omega)
      rwa [show s + (j + 1) = s + 1 + j from by omega] at this
    constructor
    · rw [show n + 1 + fuel = (n + fuel) + 1 from by omega]
      rw [fgsClaimLoop_skip (n + fuel) s ref ezC h0, relax_ez]
      rw [(ih (s + 1) ref hrest fuel).2]
      rw [show s + 1 + n = s + (n + 1) from by omega]
      by_cases he : Even n
      · simp [he, Nat.even_add_one]
      · simp [he, Nat.even_add_one]
    · rw [show n + 1 + fuel = (n + fuel) + 1 from by omega]
      rw [fgsClaimLoop_skip (n + fuel) s ref nezC h0, relax_nez]
      rw [(ih (s + 1) ref hrest fuel).1]
      rw [show s + 1 + n = s + (n + 1) from by omega]
      by_cases he : Even n
      · simp [he, Nat.even_add_one]
      · simp [he, Nat.even_add_one]

theorem quarter_init :
    divByNormConfig (fun _ => ⟨0, 0, 1 / 4⟩ : Config 1) = ezC := by
  funext i
  show divByNormVec ⟨0, 0, 1 / 4⟩ = ezC i
  have hn : norm3 (⟨0, 0, (1 : ℝ) / 4⟩ : Vec3) = 1 / 4 := by
    show Real.sqrt ((0 : ℝ) ^ 2 + 0 ^ 2 + ((1 : ℝ) / 4) ^ 2) = 1 / 4
    rw [show (0 : ℝ) ^ 2 + 0 ^ 2 + ((1 : ℝ) / 4) ^ 2 = ((1 : ℝ) / 4) ^ 2 by
      norm_num]
    exact Real.sqrt_sq (by norm_num)
  unfold divByNormVec
  rw [hn, Vec3.ext_iff']
  refine ⟨?_, ?_, ?_⟩ <;> simp [ezC] <;> norm_num

theorem fgs_code_run :
    find_ground_state (N := 1) (fun _ => ⟨0, 0, 1 / 4⟩) (-1) 0 0 1002 1 1 =
      ezC := by
  unfold find_ground_state
  rw [quarter_init, (fgsLoop_osc 1002 0).1,
    if_pos (show Even 1002 from ⟨501, by norm_num⟩)]

theorem fgsClaimLoop_checkpoint_stop (fuel step : ℕ) (ref S : Config 1)
    (h1 : step % 500 = 0) (h2 : maxChange ref (relaxStep (-1) 0 0 1 S) < 1) :
    fgsClaimLoop (N := 1) (-1) 0 0 1 1 (fuel + 1) step ref S =
      relaxStep (-1) 0 0 1 S := by
  simp only [fgsClaimLoop]
  rw [if_pos h1, if_pos h2]

theorem fgsClaimLoop_checkpoint_go (fuel step : ℕ) (ref S : Config 1)
    (h1 : step % 500 = 0) (h2 : ¬maxChange ref (relaxStep (-1) 0 0 1 S) < 1) :
    fgsClaimLoop (N := 1) (-1) 0 0 1 1 (fuel + 1) step ref S =
      fgsClaimLoop (-1) 0 0 1 1 fuel (step + 1) (relaxStep (-1) 0 0 1 S)
        (relaxStep (-1) 0 0 1 S) := by
  simp only [fgsClaimLoop]
  rw [if_pos h1, if_neg h2]

theorem fgs_claim_run :
    find_ground_state_claim (N := 1) (fun _ => ⟨0, 0, 1 / 4⟩) (-1) 0 0 1002 1 1 =
      nezC := by
  unfold find_ground_state_claim
  rw [quarter_init]
  rw [show (1002 : ℕ) = 1001 + 1 from rfl]
  rw [fgsClaimLoop_checkpoint_go 1001 0 ezC ezC rfl
    (by rw [relax_ez, maxChange_ez_nez]; norm_num)]
  rw [relax_ez]
  rw [show (0 : ℕ) + 1 = 1 from rfl]
  rw [show (1001 : ℕ) = 499 + 502 from rfl]
  rw [(fgsClaimLoop_run 499 1 nezC (fun j hj => by omega) 502).2]
  rw [if_neg (show ¬Even 499 from by decide)]
  rw [show (1 : ℕ) + 499 = 500 from rfl]
  rw [show (502 : ℕ) = 501 + 1 from rfl]
  rw [fgsClaimLoop_checkpoint_stop 501 500 nezC ezC (by norm_num)
    (by rw [relax_ez, maxChange_nez_nez]; norm_num)]
  exact relax_ez

/-- Claim C3 counterexample: on the one-site chain with `J = -1`, `D = 0`,
`Da = 0`, `dt_relax = 1`, `tolerance = 1`, `max_steps = 1002` and the random
draw `(0, 0, 1/4)` (normalized to `(0, 0, 1)`), the state flips sign at
every update, so the single-step change checked by the code is always `2`
and the code runs all `1002` steps, ending at `(0, 0, 1)`; a solver that
compared against the configuration accumulated since the last checkpoint, as
the claim states, would see change `0` at a checkpoint and stop early at
`(0, 0, -1)`. -/
theorem find_ground_state_checkpoint_counterexample :
    find_ground_state (N := 1) (fun _ => ⟨0, 0, 1 / 4⟩) (-1) 0 0 1002 1 1 ≠
      find_ground_state_claim (N := 1) (fun _ => ⟨0, 0, 1 / 4⟩)
        (-1) 0 0 1002 1 1 := by
  rw [fgs_code_run, fgs_claim_run]
  intro h
  have hz := congrArg Vec3.z (congrFun h 0)
  simp only [ezC, nezC] at hz
  norm_num at hz

/-- Claim C3, amended: at every step whose index is divisible by `500`
(including step `0`), `find_ground_state`'s loop compares the maximum
per-component change over the single update just performed (not the change
accumulated since the last checkpoint) with `tolerance`: it returns the
updated configuration when that change is below `tolerance`, and otherwise
(or at a non-checkpoint step) continues with the updated configuration. -/
theorem fgsLoop_checkpoint_behavior {N : ℕ} [NeZero N] (J D Da tol dt : ℝ)
    (fuel step : ℕ) (S : Config N) :
    (step % 500 = 0 → maxChange S (relaxStep J D Da dt S) < tol →
      fgsLoop J D Da tol dt (fuel + 1) step S = relaxStep J D Da dt S) ∧
    (¬(step % 500 = 0 ∧ maxChange S (relaxStep J D Da dt S) < tol) →
      fgsLoop J D Da tol dt (fuel + 1) step S =
        fgsLoop J D Da tol dt fuel (step + 1) (relaxStep J D Da dt S)) := by
  constructor
  · intro h1 h2
    simp only [fgsLoop]
    rw [if_pos ⟨h1, h2⟩]
  · intro h
    simp only [fgsLoop]
    rw [if_neg h]

theorem relax_fix : relaxStep 1 0 0 1 ezC = ezC := by
  funext i
  show divByNormVec (ezC i + (1 : ℝ) • calculate_B_eff ezC 1 0 0 0 i) = ezC i
  have hB : calculate_B_eff ezC 1 0 0 0 i = ⟨0, 0, 2⟩ := by
    simp only [calculate_B_eff, ezC]
    rw [Vec3.ext_iff']
    refine ⟨?_, ?_, ?_⟩ <;> simp <;> norm_num
  rw [hB]
  have hsum : ezC i + (1 : ℝ) • (⟨0, 0, 2⟩ : Vec3) = ⟨0, 0, 3⟩ := by
    rw [Vec3.ext_iff']
    refine ⟨?_, ?_, ?_⟩ <;> simp [ezC] <;> norm_num
  rw [hsum]
  unfold divByNormVec
  rw [norm3_003, Vec3.ext_iff']
  refine ⟨?_, ?_, ?_⟩ <;> simp [ezC] <;> norm_num

theorem maxChange_ez_ez : maxChange ezC ezC = 0 := by
  show maxChange (N := 1) (fun _ => ⟨0, 0, 1⟩) (fun _ => ⟨0, 0, 1⟩) = 0
  rw [maxChange_const]
  rw [show (⟨0, 0, 1⟩ : Vec3) - ⟨0, 0, 1⟩ = ⟨0, 0, 0⟩ from by
    rw [Vec3.ext_iff']; norm_num]
  rw [vmaxAbs_z, abs_zero]

/-- Witness for the amended claim C3: a concrete checkpoint (step `0`,
`J = 1`, `D = Da = 0`, `dt_relax = 1`, `tolerance = 1`) at which the
single-step change is `0 < 1`, so the loop returns the updated
configuration. -/
theorem fgsLoop_checkpoint_behavior_witness :
    fgsLoop (N := 1) 1 0 0 1 1 1 0 ezC = relaxStep 1 0 0 1 ezC :=
  (fgsLoop_checkpoint_behavior 1 0 0 1 1 0 0 ezC).1 rfl
    (by rw [relax_fix, maxChange_ez_ez]; norm_num)

/-- Claim C4: core tracking emits exactly one `(time, mean(core indices))`
sample for every trajectory time whose core-site set is non-empty, in
order, dropping the empty times; the core sites of a sample are exactly the
indices whose z-component is below zero; and when no time has a non-empty
core set the pipeline returns the missing value `none` ("no soliton
detected") instead of failing. -/
theorem trackCore_spec (traj : List (ℚ × List ℚ)) :
    trackCore traj =
      (traj.filter (fun p => decide (coreIndices p.2 ≠ []))).map
        (fun p => (p.1, meanIndices (coreIndices p.2))) ∧
    (∀ i : ℕ, ∀ sz : List ℚ,
      i ∈ coreIndices sz ↔ i < sz.length ∧ sz.getD i 0 < 0) ∧
    ((∀ p ∈ traj, coreIndices p.2 = []) → calculate_velocity traj = none) := by
  have h1 : trackCore traj =
      (traj.filter (fun p => decide (coreIndices p.2 ≠ []))).map
        (fun p => (p.1, meanIndices (coreIndices p.2))) := by
    induction traj with
    | nil => rfl
    | cons a l ih =>
      by_cases hc : coreIndices a.2 = []
      · simp only [trackCore, List.filterMap_cons, hc, if_pos] at ih ⊢
        rw [List.filter_cons]
        simp [hc, ih]
      · simp only [trackCore, List.filterMap_cons, hc, if_neg] at ih ⊢
        rw [List.filter_cons]
        simp [hc, ih]
  refine ⟨h1, fun i sz => ?_, fun hall => ?_⟩
  · unfold coreIndices
    rw [List.mem_filter, List.mem_range]
    simp
  · have hempty : trackCore traj = [] := by
      rw [h1]
      have : traj.filter (fun p => decide (coreIndices p.2 ≠ [])) = [] := by
        rw [List.filter_eq_nil]
        intro a ha
        simp [hall a ha]
      rw [this, List.map_nil]
    simp [calculate_velocity, hempty]

/-- Witness for claim C4: a one-sample trajectory whose only configuration
has all z-components positive has an empty core set everywhere, and the
pipeline returns `none`. -/
theorem trackCore_spec_witness :
    calculate_velocity [((5 : ℚ), [(1 : ℚ)])] = none :=
  (trackCore_spec [((5 : ℚ), [(1 : ℚ)])]).2.2 (by decide)

/-- Claim C5, amended: the fit window is open, not closed — a tracked sample
is used for the least-squares fit exactly when its time satisfies the
strict inequalities `T_START_FIT < t` and `t < T_END_FIT`, so samples at
exactly `T_START_FIT` or exactly `T_END_FIT` are excluded. -/
theorem fitWindowFilter_spec (samples : List (ℚ × ℚ)) (p : ℚ × ℚ) :
    p ∈ fitWindowFilter samples ↔
      p ∈ samples ∧ T_START_FIT < p.1 ∧ p.1 < T_END_FIT := by
  unfold fitWindowFilter
  rw [List.mem_filter]
  simp

/-- Claim C5 counterexample: a tracked sample at time exactly
`T_START_FIT = 30` satisfies the claim's closed-window condition
`T_START_FIT ≤ t ≤ T_END_FIT`, yet the code's strict mask
`(t > T_START_FIT) & (t < T_END_FIT)` drops it, so it is not used in the
fit. -/
theorem fitWindowFilter_endpoint_counterexample :
    T_START_FIT ≤ 30 ∧ (30 : ℚ) ≤ T_END_FIT ∧
      ((30 : ℚ), (0 : ℚ)) ∉ fitWindowFilter [((30 : ℚ), (0 : ℚ))] := by
  refine ⟨by norm_num [T_START_FIT], by norm_num [T_END_FIT], by decide⟩

/-- Claim C8: whenever fewer than 2 tracked samples fall inside the fit
window, `calculate_velocity` returns the missing value `none` — never a
numeric velocity; being a total function it raises nothing. -/
theorem calculate_velocity_guard (traj : List (ℚ × List ℚ))
    (h : (fitWindowFilter (trackCore traj)).length < 2) :
    calculate_velocity traj = none := by
  unfold calculate_velocity
  by_cases ht : trackCore traj = []
  · simp [ht]
  · simp [ht, h]

/-- Witness for claim C8: a trajectory with exactly one in-window tracked
sample yields `none`. -/
theorem calculate_velocity_guard_witness :
    calculate_velocity [((40 : ℚ), [(-1 : ℚ)])] = none :=
  calculate_velocity_guard [((40 : ℚ), [(-1 : ℚ)])] (by decide)
